import Mathlib

/-!
Verification development for the typemold compiled-mapping engine
(src/src/registry.ts, src/src/types.ts, the utility module providing
getNestedValue, and the Mapper facade).

JavaScript runtime values are shallowly embedded as the inductive type
Value below; undefined and null are distinct constructors, and the JS
test (x == null) is the predicate isNullish.  Objects are modelled as
association lists of own properties (prototype-chain reads do not occur
on any path the claims exercise: getNestedValue is guarded, and compiled
mappers only write freshly created result objects).  Functions that
mutate state in the source (the registry singleton, the in-place
Array.prototype.sort inside getOptionsKey) are embedded as state-passing
functions returning the updated state / the mutated options value
alongside their result.
-/

namespace Typemold

/-- Model of a JavaScript runtime value. -/
inductive Value : Type where
  | undefined : Value
  | null : Value
  | boolV : Bool → Value
  | numV : Int → Value
  | str : String → Value
  | obj : List (String × Value) → Value
  | arr : List Value → Value

/-- Embeds the JS test (v == null), true exactly for undefined and null. -/
def isNullish : Value → Bool
  | .undefined => true
  | .null => true
  | _ => false

/-- Embeds (typeof v === "object") for non-null v: objects and arrays. -/
def isObjectLike : Value → Bool
  | .obj _ => true
  | .arr _ => true
  | _ => false

/-- Own-property read on an association list; a missing key yields undefined. -/
def listLookupStr : List (String × Value) → String → Value
  | [], _ => .undefined
  | (k, v) :: rest, key => if k == key then v else listLookupStr rest key

/-- Embeds the JS property read v[k] used by getNestedValue: own-property
lookup on objects, index lookup on arrays, undefined otherwise. -/
def getField : Value → String → Value
  | .obj fs, k => listLookupStr fs k
  | .arr es, k =>
      match k.toNat? with
      | some i => es.getD i .undefined
      | none => .undefined
  | _, _ => .undefined

/-- Auxiliary character-level splitter; acc holds the current segment
reversed. -/
def splitOnDotAux : List Char → List Char → List String
  | [], acc => [String.mk acc.reverse]
  | c :: cs, acc =>
      if c = '.' then String.mk acc.reverse :: splitOnDotAux cs []
      else splitOnDotAux cs (c :: acc)

/-- Embeds the JS call path.split(".") (and equivalently the dot-segment
view of a path): structural recursion over the characters, so that it
evaluates inside the kernel.  A path with no dot yields the singleton
list of the path itself, matching path.includes(".") being false. -/
def splitDots (p : String) : List String := splitOnDotAux p.data []

/-- Dangerous property names blocked by getNestedValue
(the BLOCKED_KEYS set in the utility module). -/
def BLOCKED_KEYS : List String := ["__proto__", "constructor", "prototype"]

/-- Embeds the multi-segment loop of getNestedValue: for each segment,
first the blocked-key check, then the nullish / non-object short
circuit, then the property read; the value after the last segment is
returned. -/
def walkPath : Value → List String → Value
  | cur, [] => cur
  | cur, s :: rest =>
      if s ∈ BLOCKED_KEYS then .undefined
      else if isNullish cur || !(isObjectLike cur) then .undefined
      else walkPath (getField cur s) rest

/-- Embeds getNestedValue from the utility module.  The source branches
on path.includes("."); here that branch is realized by matching on
splitDots, which yields a singleton exactly when the path contains no
dot (the single-segment fast path reads obj[path] directly after the
blocked-key check, without the object-likeness test of the loop).  The
pathCache of the source memoizes split results only and is
observationally transparent, so it is not modelled. -/
def getNestedValue (o : Value) (path : String) : Value :=
  if isNullish o then .undefined
  else
    match splitDots path with
    | [s] => if s ∈ BLOCKED_KEYS then .undefined else getField o s
    | segs => walkPath o segs

theorem walkPath_blocked (segs : List String) (cur : Value)
    (h : ∃ s ∈ segs, s ∈ BLOCKED_KEYS) : walkPath cur segs = .undefined := by
  induction segs generalizing cur with
  | nil => simp at h
  | cons s rest ih =>
      by_cases hc : s ∈ BLOCKED_KEYS
      · simp [walkPath, hc]
      · by_cases hn : (isNullish cur || !(isObjectLike cur)) = true
        · simp [walkPath, hc, hn]
        · have hrest : ∃ s₀ ∈ rest, s₀ ∈ BLOCKED_KEYS := by
            rcases h with ⟨s₀, hs₀, hb⟩
            rcases List.mem_cons.mp hs₀ with rfl | hmem
            · exact absurd hb hc
            · exact ⟨s₀, hmem, hb⟩
          simp only [walkPath, if_neg hc, hn, Bool.false_eq_true, if_false]
          exact ih _ hrest

/-- C5 (prototype-pollution guard): for every value and every path one of
whose dot-separated segments is a blocked name (including the single
segment of a dot-free path), getNestedValue resolves to undefined.  The
function is total (never throws) and, being a pure Lean function over an
immutable Value, performs no mutation of the source object or of any
prototype, matching the read-only resolution loop of the source. -/
theorem C5_proto_guard (o : Value) (p : String)
    (h : ∃ s ∈ splitDots p, s ∈ BLOCKED_KEYS) :
    getNestedValue o p = .undefined := by
  unfold getNestedValue
  by_cases hn : isNullish o
  · simp [hn]
  · simp only [hn, Bool.false_eq_true, if_false]
    rcases hsplit : splitDots p with _ | ⟨s, rest⟩
    · rw [hsplit] at h; simp at h
    · rcases rest with _ | ⟨s₁, rest₁⟩
      · rw [hsplit] at h
        rcases h with ⟨s₀, hs₀, hb⟩
        simp only [List.mem_singleton] at hs₀
        subst hs₀
        simp [hb]
      · rw [hsplit] at h
        exact walkPath_blocked _ _ h

/-- Witness for C5 at the two concrete inputs named by the specification. -/
theorem C5_proto_guard_witness :
    getNestedValue (.obj [("polluted", .str "x")]) "__proto__.polluted" = .undefined
      ∧ getNestedValue (.obj [("constructor", .str "x")]) "constructor" = .undefined :=
  ⟨C5_proto_guard _ _ (by decide), C5_proto_guard _ _ (by decide)⟩

/-! Lexicographic string comparison, embedding the default comparator of
Array.prototype.sort (code-unit order; identical to character order for
the identifier-like field names at play). -/

/-- Lexicographic less-or-equal on character lists. -/
def charListLe : List Char → List Char → Bool
  | [], _ => true
  | _ :: _, [] => false
  | a :: as, b :: bs => if a = b then charListLe as bs else decide (a < b)

/-- Lexicographic less-or-equal on strings, as Bool. -/
def strLeB (a b : String) : Bool := charListLe a.data b.data

/-- Lexicographic less-or-equal on strings, as a decidable relation. -/
def strLeR : String → String → Prop := fun a b => strLeB a b = true

instance : DecidableRel strLeR := fun a b => Bool.decEq (strLeB a b) true

theorem charListLe_total (as bs : List Char) :
    charListLe as bs = true ∨ charListLe bs as = true := by
  induction as generalizing bs with
  | nil => left; rfl
  | cons a as ih =>
      cases bs with
      | nil => right; rfl
      | cons b bs =>
          by_cases hab : a = b
          · subst hab
            rcases ih bs with h | h
            · left; simp [charListLe, h]
            · right; simp [charListLe, h]
          · rcases lt_or_gt_of_ne hab with h | h
            · left; simp [charListLe, hab, h]
            · right
              have hba : b ≠ a := fun e => hab e.symm
              simp [charListLe, hba, h]

theorem charListLe_trans (as bs cs : List Char) (h1 : charListLe as bs = true)
    (h2 : charListLe bs cs = true) : charListLe as cs = true := by
  induction as generalizing bs cs with
  | nil => rfl
  | cons a as ih =>
      cases bs with
      | nil => simp [charListLe] at h1
      | cons b bs =>
          cases cs with
          | nil => simp [charListLe] at h2
          | cons c cs =>
              by_cases hab : a = b <;> by_cases hbc : b = c
              · subst hab; subst hbc
                simp only [charListLe, if_pos rfl] at h1 h2 ⊢
                exact ih bs cs h1 h2
              · subst hab
                simp only [charListLe, if_pos rfl] at h1
                simp only [charListLe, if_neg hbc, decide_eq_true_eq] at h2
                have hac : a ≠ c := ne_of_lt h2
                simp [charListLe, hac, h2]
              · subst hbc
                simp only [charListLe, if_neg hab, decide_eq_true_eq] at h1
                simp [charListLe, hab, h1]
              · simp only [charListLe, if_neg hab, decide_eq_true_eq] at h1
                simp only [charListLe, if_neg hbc, decide_eq_true_eq] at h2
                have hac : a < c := lt_trans h1 h2
                simp [charListLe, ne_of_lt hac, hac]

instance : IsTotal String strLeR := ⟨fun a b => charListLe_total a.data b.data⟩

instance : IsTrans String strLeR :=
  ⟨fun a b c h1 h2 => charListLe_trans a.data b.data c.data h1 h2⟩

/-- Embeds fields.sort(): the default in-place lexicographic sort; the
in-place effect is modelled by getOptionsKey returning the updated
options value. -/
def sortStrings (l : List String) : List String := List.insertionSort strLeR l

/-! Data model of the registry (src/src/types.ts, src/src/registry.ts). -/

/-- Transform function type: (source, context) to value; the context is
carried as an opaque Value blob. -/
def TransformFn : Type := Value → Value → Value

/-- Source locator of a property mapping: a dotted path string or a
transform function.  The source stores this in the single field
PropertyMappingConfig.source together with the boolean discriminant
isTransform; the decorators (MapFrom in the decorators module) always set
isTransform to true exactly when a function is stored, so the
discriminated union is the faithful view of ⟨source, isTransform⟩. -/
inductive Locator : Type where
  | path : String → Locator
  | fn : TransformFn → Locator

/-- Mapping configuration for a single property
(PropertyMappingConfig in src/src/types.ts; the groups array lives in
the per-entry fieldGroups index and is not read by the compiler). -/
structure PropertyMappingConfig : Type where
  targetKey : String
  source : Locator
  ignore : Bool := false

/-- Registry entry for one target type
(MappingRegistryEntry in src/src/types.ts): the insertion-ordered
property-config map (modelled as the list of its values) and the field
group index mapping a group name to its set of target keys. -/
structure MappingRegistryEntry : Type where
  propertyConfigs : List PropertyMappingConfig := []
  fieldGroups : List (String × List String) := []

/-- Compiled mapper: the specialized function together with an identity
tag.  The id stands for JS reference identity of the function object:
each buildMapper call in the source allocates a fresh closure, which the
embedding records by drawing a fresh id from the registry state. -/
structure CompiledMapper : Type where
  id : Nat
  fn : Value → Value → Value

/-- State of the MappingRegistryClass singleton: the declaration registry
(a Map from target type to entry) and the compiled-mapper cache (a
WeakMap from target type to a Map from options key to mapper).  Target
types are named by Nat identifiers.  The two-level cache is flattened to
an association list keyed by (type, options key); consing new entries in
front and reading the first match realizes Map.set overwrite semantics.
nextId is the id supply for freshly built mappers. -/
structure RegistryState : Type where
  registry : List (Nat × MappingRegistryEntry) := []
  compiled : List ((Nat × String) × CompiledMapper) := []
  nextId : Nat := 0

/-- Mapping options (MapOptions in src/src/types.ts).  The extras blob is
irrelevant to key derivation and projection and is left out.  The omit
option of the source is named omitF here because omit is a reserved word
in Lean. -/
structure MapOptions : Type where
  pick : Option (List String) := none
  omitF : Option (List String) := none
  group : Option String := none

/-- Embeds MappingRegistryClass.getEntry: return the cached entry, or on
first sight consult the metadata provider (the Reflect.getMetadata reads
of createEntryFromMetadata, abstracted as the deterministic function
meta) and record the result. -/
def getEntry (meta : Nat → MappingRegistryEntry) (s : RegistryState) (t : Nat) :
    MappingRegistryEntry × RegistryState :=
  match s.registry.lookup t with
  | some e => (e, s)
  | none => (meta t, { s with registry := (t, meta t) :: s.registry })

/-- Embeds MappingRegistryClass.getCompiledMapper: a pure double lookup
in the compiled-mapper cache; the optionsKey parameter defaults to
"default" as in the source. -/
def registryGetCompiledMapper (s : RegistryState) (t : Nat)
    (optionsKey : String := "default") : Option CompiledMapper :=
  (s.compiled.find? (fun e => e.1.1 == t && e.1.2 == optionsKey)).map Prod.snd

/-- Embeds MappingRegistryClass.setCompiledMapper: store a mapper under
(targetType, optionsKey); the new entry shadows any older one. -/
def setCompiledMapper (s : RegistryState) (t : Nat) (optionsKey : String)
    (m : CompiledMapper) : RegistryState :=
  { s with compiled := ((t, optionsKey), m) :: s.compiled }

/-- Embeds MappingRegistryClass.clearCache, which executes only
this.registry.clear(): the declaration registry is emptied while the
compiledMappers WeakMap is left untouched. -/
def clearCache (s : RegistryState) : RegistryState :=
  { s with registry := [] }

/-- Embeds MappingRegistryClass.getOptionsKey together with its side
effect: the source sorts options.pick respectively options.omit in place
before joining, so the derived key is returned together with the
caller-visible mutated options.  The branch order of the source is pick,
then omit, then group; an array-valued pick or omit is truthy even when
empty, while an empty group string is falsy and falls through to
"default". -/
def getOptionsKey (options : Option MapOptions) : String × Option MapOptions :=
  match options with
  | none => ("default", none)
  | some o =>
    match o.pick with
    | some l =>
        let sorted := sortStrings l
        ("pick:" ++ String.intercalate "," sorted, some { o with pick := some sorted })
    | none =>
      match o.omitF with
      | some l =>
          let sorted := sortStrings l
          ("omit:" ++ String.intercalate "," sorted, some { o with omitF := some sorted })
      | none =>
        match o.group with
        | some g =>
            if g = "" then ("default", some o) else ("group:" ++ g, some o)
        | none => ("default", some o)

/-- Omit stage of MapperFactory.getPropertiesToMap: reached when group
and pick do not apply; an omit list is honored only when nonempty. -/
def projectOmit (allConfigs : List PropertyMappingConfig) (o : MapOptions) :
    List PropertyMappingConfig :=
  match o.omitF with
  | some l =>
      if l.length > 0 then
        allConfigs.filter (fun c => !(decide (c.targetKey ∈ l)))
      else allConfigs
  | none => allConfigs

/-- Pick stage of MapperFactory.getPropertiesToMap: reached when group
does not apply; a pick list is honored only when nonempty, otherwise the
omit stage runs. -/
def projectPickOmit (allConfigs : List PropertyMappingConfig) (o : MapOptions) :
    List PropertyMappingConfig :=
  match o.pick with
  | some l =>
      if l.length > 0 then
        allConfigs.filter (fun c => decide (c.targetKey ∈ l))
      else projectOmit allConfigs o
  | none => projectOmit allConfigs o

/-- Embeds MapperFactory.getPropertiesToMap: ignored configs are dropped
unconditionally; then the group branch runs when options.group is truthy
(a nonempty string), with an unknown group resolving to the empty list;
otherwise the pick and omit stages run in order. -/
def getPropertiesToMap (entry : MappingRegistryEntry)
    (options : Option MapOptions) : List PropertyMappingConfig :=
  let allConfigs := entry.propertyConfigs.filter (fun c => !c.ignore)
  match options with
  | none => allConfigs
  | some o =>
    match o.group with
    | some g =>
        if g = "" then projectPickOmit allConfigs o
        else
          match entry.fieldGroups.lookup g with
          | some groupFields =>
              allConfigs.filter (fun c => decide (c.targetKey ∈ groupFields))
          | none => []
    | none => projectPickOmit allConfigs o

/-- Path-sourced half of the partition in MapperFactory.buildMapper. -/
def pathMappingsOf (props : List PropertyMappingConfig) : List (String × String) :=
  props.filterMap fun p =>
    match p.source with
    | .path s => some (p.targetKey, s)
    | .fn _ => none

/-- Transform-sourced half of the partition in MapperFactory.buildMapper. -/
def transformMappingsOf (props : List PropertyMappingConfig) :
    List (String × TransformFn) :=
  props.filterMap fun p =>
    match p.source with
    | .fn f => some (p.targetKey, f)
    | .path _ => none

/-- Embeds the JS assignment result[k] = v on the own properties of the
result object: an existing key is updated in place, a new key is
appended. -/
def setField : List (String × Value) → String → Value → List (String × Value)
  | [], k, v => [(k, v)]
  | (k₀, v₀) :: rest, k, v =>
      if k₀ == k then (k, v) :: rest else (k₀, v₀) :: setField rest k v

/-- Embeds the closure returned by MapperFactory.buildMapper: a nullish
source short-circuits to the null sentinel before any lookup or
transform; otherwise a fresh result object is populated by the path
mappings (each key assigned even when resolution yields undefined) and
then by the transform mappings. -/
def buildMapper (props : List PropertyMappingConfig) : Value → Value → Value :=
  fun source ctx =>
    if isNullish source then .null
    else
      .obj ((transformMappingsOf props).foldl
        (fun r m => setField r m.1 (m.2 source ctx))
        ((pathMappingsOf props).foldl
          (fun r m => setField r m.1 (getNestedValue source m.2)) []))

/-- Embeds MapperFactory.createMapper: resolve the entry, derive the
options key (mutating the options), return a cached mapper when present,
otherwise build, cache and return a fresh one.  The mutated options
value is returned alongside, mirroring the in-place sort observable by
the caller. -/
def createMapper (meta : Nat → MappingRegistryEntry) (t : Nat)
    (options : Option MapOptions) (s : RegistryState) :
    CompiledMapper × Option MapOptions × RegistryState :=
  let s₁ := (getEntry meta s t).2
  let entry := (getEntry meta s t).1
  let ko := getOptionsKey options
  match registryGetCompiledMapper s₁ t ko.1 with
  | some m => (m, ko.2, s₁)
  | none =>
      let m : CompiledMapper :=
        ⟨s₁.nextId, buildMapper (getPropertiesToMap entry ko.2)⟩
      (m, ko.2, { setCompiledMapper s₁ t ko.1 m with nextId := s₁.nextId + 1 })

/-- Embeds Mapper.map of the facade: a nullish source returns null
before any compilation; otherwise the compiled mapper is invoked with
the per-call context (modelled as an opaque Value). -/
def mapperMap (meta : Nat → MappingRegistryEntry) (t : Nat)
    (options : Option MapOptions) (source ctx : Value) (s : RegistryState) :
    Value × RegistryState :=
  if isNullish source then (.null, s)
  else
    let r := createMapper meta t options s
    (r.1.fn source ctx, r.2.2)

/-- Recognizes array values (Array.isArray). -/
def isArrValue : Value → Bool
  | .arr _ => true
  | _ => false

/-- Embeds Mapper.mapArray of the facade: a non-array source (which
includes null and undefined) yields the empty array without compiling;
otherwise one compiled mapper is obtained and applied element-wise in
index order, nullish elements mapping to the null sentinel. -/
def mapArray (meta : Nat → MappingRegistryEntry) (t : Nat)
    (options : Option MapOptions) (sources ctx : Value) (s : RegistryState) :
    Value × RegistryState :=
  match sources with
  | .arr xs =>
      let r := createMapper meta t options s
      (.arr (xs.map fun x => if isNullish x then .null else r.1.fn x ctx), r.2.2)
  | _ => (.arr [], s)

/-- Embeds Mapper.getCompiledMapper of the facade: derive the options key
(which sorts the pick or omit list in place, returned as the middle
component) and perform the pure cache lookup; the registry state is
untouched, which the embedding makes explicit by returning it
unchanged. -/
def mapperGetCompiledMapper (t : Nat) (options : Option MapOptions)
    (s : RegistryState) :
    Option CompiledMapper × Option MapOptions × RegistryState :=
  let ko := getOptionsKey options
  (registryGetCompiledMapper s t ko.1, ko.2, s)

/-- Keys assigned on a mapping result (the own properties of the
returned object). -/
def assignedKeys : Value → List String
  | .obj fields => fields.map Prod.fst
  | _ => []

/-- Target keys declared by an entry, in declaration order. -/
def declaredKeys (e : MappingRegistryEntry) : List String :=
  e.propertyConfigs.map (fun c => c.targetKey)

/-! Concrete fixtures used by witnesses and counterexamples: a
metadata provider declaring two path-mapped fields a and b and one group
g containing b, and the empty initial registry state. -/

/-- Demonstration metadata provider: fields a and b, group g = ⟨b⟩. -/
def metaDemo : Nat → MappingRegistryEntry := fun _ =>
  { propertyConfigs := [⟨"a", .path "a", false⟩, ⟨"b", .path "b", false⟩],
    fieldGroups := [("g", ["b"])] }

/-- Empty initial registry state. -/
def s0 : RegistryState := {}

/-- Demonstration source object with fields a and b. -/
def srcDemo : Value := .obj [("a", .str "x"), ("b", .str "y")]

/-! State lemmas for the registry operations. -/

theorem getEntry_compiled (meta : Nat → MappingRegistryEntry)
    (s : RegistryState) (t : Nat) :
    ((getEntry meta s t).2).compiled = s.compiled := by
  unfold getEntry
  cases s.registry.lookup t <;> rfl

theorem regGet_getEntry (meta : Nat → MappingRegistryEntry) (s : RegistryState)
    (t t' : Nat) (k : String) :
    registryGetCompiledMapper (getEntry meta s t).2 t' k
      = registryGetCompiledMapper s t' k := by
  unfold registryGetCompiledMapper
  rw [getEntry_compiled]

/-- When a mapper is cached under the derived key, createMapper returns
exactly that mapper. -/
theorem createMapper_hit (meta : Nat → MappingRegistryEntry) (t : Nat)
    (o : Option MapOptions) (s : RegistryState) (m : CompiledMapper)
    (h : registryGetCompiledMapper s t (getOptionsKey o).1 = some m) :
    (createMapper meta t o s).1 = m := by
  have h' : registryGetCompiledMapper (getEntry meta s t).2 t
      (getOptionsKey o).1 = some m := by
    rw [regGet_getEntry]; exact h
  simp only [createMapper]
  rw [h']

/-- After a createMapper call, the cache holds the returned mapper under
the derived options key. -/
theorem createMapper_lookup (meta : Nat → MappingRegistryEntry) (t : Nat)
    (options : Option MapOptions) (s : RegistryState) :
    registryGetCompiledMapper (createMapper meta t options s).2.2 t
        (getOptionsKey options).1
      = some (createMapper meta t options s).1 := by
  simp only [createMapper]
  split
  next m hm => exact hm
  next hm =>
    simp [registryGetCompiledMapper, setCompiledMapper]

/-- C1 (cache identity): two consecutive compile calls for the same
target shape whose options derive equal signatures return the same
compiled-mapper instance; in particular pick or omit lists differing
only in ordering collide, since the signature sorts them. -/
theorem C1_cache_identity (meta : Nat → MappingRegistryEntry) (t : Nat)
    (o₁ o₂ : Option MapOptions) (s : RegistryState)
    (h : (getOptionsKey o₁).1 = (getOptionsKey o₂).1) :
    (createMapper meta t o₂ (createMapper meta t o₁ s).2.2).1
      = (createMapper meta t o₁ s).1 := by
  apply createMapper_hit
  rw [← h]
  exact createMapper_lookup meta t o₁ s

/-- Witness for C1: reordered pick lists derive the same signature and
the second call returns the first call's mapper instance. -/
theorem C1_cache_identity_witness :
    ((getOptionsKey (some { pick := some ["b", "a"] })).1
        = (getOptionsKey (some { pick := some ["a", "b"] })).1)
    ∧ (createMapper metaDemo 0 (some { pick := some ["a", "b"] })
          (createMapper metaDemo 0 (some { pick := some ["b", "a"] }) s0).2.2).1
        = (createMapper metaDemo 0 (some { pick := some ["b", "a"] }) s0).1 :=
  ⟨by decide, C1_cache_identity metaDemo 0 _ _ s0 (by decide)⟩

/-- C2 (clearCache discards everything): the source clearCache executes
only this.registry.clear(), so while the declaration registry is emptied
(third conjunct), a compiled mapper stored before the clear is still
returned by getCompiledMapper under its signature (first conjunct), and
the next compile for the same shape and options returns the pre-clear
instance instead of building a fresh one (second conjunct).  This
contradicts the claim and the function's own documentation, which
promise that all cached mappers are discarded. -/
theorem C2_clear_cache_retains_mappers :
    (registryGetCompiledMapper
        (clearCache (createMapper metaDemo 0 none s0).2.2) 0 "default").isSome = true
    ∧ (createMapper metaDemo 0 none
          (clearCache (createMapper metaDemo 0 none s0).2.2)).1.id
        = (createMapper metaDemo 0 none s0).1.id
    ∧ (clearCache (createMapper metaDemo 0 none s0).2.2).registry = [] :=
  ⟨rfl, rfl, rfl⟩

/-- C7 (null propagation): every compiled mapper the factory hands out
returns the null sentinel on a nullish source without consulting any
path or transform, and the facade map call short-circuits likewise.  The
hypothesis hgood states that every mapper already cached was itself
produced by buildMapper (expressed by its observable null behavior),
which holds for every state reachable in the program, where mappers
enter the cache only through buildMapper. -/
theorem C7_null_propagation (meta : Nat → MappingRegistryEntry) (t : Nat)
    (options : Option MapOptions) (s : RegistryState) (src ctx : Value)
    (hs : isNullish src = true)
    (hgood : ∀ e ∈ s.compiled, ∀ s' c' : Value,
      isNullish s' = true → e.2.fn s' c' = .null) :
    (createMapper meta t options s).1.fn src ctx = .null
    ∧ (mapperMap meta t options src ctx s).1 = .null := by
  constructor
  · simp only [createMapper]
    split
    next m hm =>
      simp only [registryGetCompiledMapper, Option.map_eq_some'] at hm
      rcases hm with ⟨e, hfind, he⟩
      have hmem := List.mem_of_find?_eq_some hfind
      rw [getEntry_compiled] at hmem
      exact he ▸ hgood e hmem src ctx hs
    next hm =>
      simp [buildMapper, hs]
  · unfold mapperMap
    simp [hs]

/-- Witness for C7 at the empty state and a null source. -/
theorem C7_null_propagation_witness :
    (createMapper metaDemo 0 none s0).1.fn .null .undefined = .null
    ∧ (mapperMap metaDemo 0 none .null .undefined s0).1 = .null :=
  C7_null_propagation metaDemo 0 none s0 .null .undefined rfl
    (by intro e he; simp [s0] at he)

/-- C10 (inspection is read-only): the facade getCompiledMapper derives
the options key and performs the pure cache lookup only: the registry
state it returns is the one it was given (no entry creation, no
compilation, no metadata read: the definition does not even receive a
metadata provider), and when nothing is cached under the derived
signature it returns none. -/
theorem C10_inspection_read_only (t : Nat) (o : Option MapOptions)
    (s : RegistryState) :
    (mapperGetCompiledMapper t o s).2.2 = s
    ∧ (mapperGetCompiledMapper t o s).1
        = registryGetCompiledMapper s t (getOptionsKey o).1
    ∧ (registryGetCompiledMapper s t (getOptionsKey o).1 = none →
        (mapperGetCompiledMapper t o s).1 = none) :=
  ⟨rfl, rfl, fun h => h⟩

/-- Witness for C10 at the empty state. -/
theorem C10_inspection_read_only_witness :
    (mapperGetCompiledMapper 0 none s0).2.2 = s0
    ∧ (mapperGetCompiledMapper 0 none s0).1 = none :=
  ⟨(C10_inspection_read_only 0 none s0).1,
    (C10_inspection_read_only 0 none s0).2.2 rfl⟩

/-- Key derivation keeps the group component of the options unchanged
(only the pick or omit list is replaced by its sorted version). -/
theorem getOptionsKey_group (o : MapOptions) :
    ∃ o', (getOptionsKey (some o)).2 = some o' ∧ o'.group = o.group := by
  rcases o with ⟨p, om, g⟩
  cases p with
  | some l => exact ⟨_, rfl, rfl⟩
  | none =>
    cases om with
    | some l => exact ⟨_, rfl, rfl⟩
    | none =>
      cases g with
      | none => exact ⟨_, rfl, rfl⟩
      | some gv =>
          by_cases hg : gv = ""
          · exact ⟨_, by simp [getOptionsKey, hg], rfl⟩
          · exact ⟨_, by simp [getOptionsKey, hg], rfl⟩

/-- With a truthy (nonempty) group option, declaration resolution
depends only on the group: pick and omit are never consulted. -/
theorem getPropertiesToMap_group (e : MappingRegistryEntry)
    (p om : Option (List String)) (g : String) (hne : g ≠ "") :
    getPropertiesToMap e (some ⟨p, om, some g⟩)
      = getPropertiesToMap e (some { group := some g }) := by
  unfold getPropertiesToMap
  simp [hne]

/-- Counterexample to C3 as stated: with fields a, b and group g = ⟨b⟩,
first compiling with pick ⟨a⟩ and then compiling with BOTH group g and
pick ⟨a⟩ returns the cached pick mapper (the options signature is
derived with precedence pick over group, so the multi-mode call derives
the pick signature and hits the cache): the returned mapper assigns
exactly key a, whereas the highest-precedence mode present (group g)
projects exactly key b. -/
theorem C3_counterexample :
    assignedKeys ((createMapper metaDemo 0
        (some { pick := some ["a"], group := some "g" })
        (createMapper metaDemo 0 (some { pick := some ["a"] }) s0).2.2).1.fn
        srcDemo .undefined) = ["a"]
    ∧ assignedKeys (buildMapper (getPropertiesToMap (metaDemo 0)
        (some { group := some "g" })) srcDemo .undefined) = ["b"]
    ∧ (["a"] : List String) ≠ ["b"] :=
  ⟨rfl, rfl, by decide⟩

/-- With no (truthy) group and a nonempty pick list, declaration
resolution is the pick filter: omit is never consulted. -/
theorem getPropertiesToMap_pick (e : MappingRegistryEntry) (p : List String)
    (om : Option (List String)) (g : Option String)
    (hg : g = none ∨ g = some "") (hp : p ≠ []) :
    getPropertiesToMap e (some ⟨some p, om, g⟩)
      = (e.propertyConfigs.filter (fun c => !c.ignore)).filter
          (fun c => decide (c.targetKey ∈ p)) := by
  unfold getPropertiesToMap projectPickOmit
  rcases hg with rfl | rfl <;> simp [List.length_pos.mpr hp]

/-- With no (truthy) group and no honored pick (absent or empty), a
nonempty omit list resolves to the omit filter. -/
theorem getPropertiesToMap_omit (e : MappingRegistryEntry)
    (p : Option (List String)) (hp : p = none ∨ p = some [])
    (F : List String) (g : Option String)
    (hg : g = none ∨ g = some "") (hF : F ≠ []) :
    getPropertiesToMap e (some ⟨p, some F, g⟩)
      = (e.propertyConfigs.filter (fun c => !c.ignore)).filter
          (fun c => !(decide (c.targetKey ∈ F))) := by
  unfold getPropertiesToMap projectPickOmit projectOmit
  rcases hg with rfl | rfl <;> rcases hp with rfl | rfl <;>
    simp [List.length_pos.mpr hF]

/-- Sorting a nonempty field list yields a nonempty list. -/
theorem sortStrings_ne_nil (F : List String) (hF : F ≠ []) :
    sortStrings F ≠ [] := by
  have hlen : (sortStrings F).length = F.length :=
    (List.perm_insertionSort strLeR F).length_eq
  apply List.length_pos.mp
  rw [hlen]
  exact List.length_pos.mpr hF

/-- Sorting a field list preserves the membership test used by the pick
and omit filters. -/
theorem mem_sortStrings_decide (F : List String) (k : String) :
    decide (k ∈ sortStrings F) = decide (k ∈ F) :=
  decide_eq_decide.mpr (List.Perm.mem_iff (List.perm_insertionSort strLeR F))

/-- C3 amended: when options supply more than one projection mode,
declaration resolution honors exactly one, with precedence group over
pick over omit over none (a mode applies when truthy and honored:
nonempty group string, nonempty pick list, nonempty omit list); on a
cache miss the compiled mapper built for such a call performs the
projection of the highest-precedence mode present: the group when a
truthy group is supplied (first conjunct, irrespective of pick and
omit), else a nonempty pick (second conjunct, irrespective of omit),
else a nonempty omit (third conjunct).  The cache signature however is
derived with the precedence pick over omit over group, so on a cache
hit the call may return a mapper performing a lower-precedence
projection (see the counterexample). -/
theorem C3_mode_precedence (meta : Nat → MappingRegistryEntry) (t : Nat)
    (o : MapOptions) (s : RegistryState)
    (hmiss : registryGetCompiledMapper s t (getOptionsKey (some o)).1 = none) :
    (∀ g, o.group = some g → g ≠ "" →
      (createMapper meta t (some o) s).1.fn
        = buildMapper (getPropertiesToMap (getEntry meta s t).1
            (some { group := some g })))
    ∧ (∀ F, o.pick = some F → F ≠ [] →
        (o.group = none ∨ o.group = some "") →
      (createMapper meta t (some o) s).1.fn
        = buildMapper (getPropertiesToMap (getEntry meta s t).1
            (some { pick := some F })))
    ∧ (∀ F, o.omitF = some F → F ≠ [] →
        (o.group = none ∨ o.group = some "") →
        (o.pick = none ∨ o.pick = some []) →
      (createMapper meta t (some o) s).1.fn
        = buildMapper (getPropertiesToMap (getEntry meta s t).1
            (some { omitF := some F }))) := by
  have hm' : registryGetCompiledMapper (getEntry meta s t).2 t
      (getOptionsKey (some o)).1 = none := by
    rw [regGet_getEntry]; exact hmiss
  have hfn : (createMapper meta t (some o) s).1.fn
      = buildMapper (getPropertiesToMap (getEntry meta s t).1
          (getOptionsKey (some o)).2) := by
    simp only [createMapper]
    rw [hm']
  refine ⟨fun g hg hne => ?_, fun F hF hFne hg => ?_,
    fun F hF hFne hg hp => ?_⟩
  · rw [hfn]
    obtain ⟨o'', ho'', hgrp⟩ := getOptionsKey_group o
    rw [ho'']
    obtain ⟨p', om', g'⟩ := o''
    have hg' : g' = some g := hgrp.trans hg
    subst hg'
    rw [getPropertiesToMap_group _ p' om' g hne]
  · obtain ⟨p₀, om₀, g₀⟩ := o
    have hp₀ : p₀ = some F := hF
    subst hp₀
    have hg' : g₀ = none ∨ g₀ = some "" := hg
    rw [hfn]
    have hcalc : (getOptionsKey (some ⟨some F, om₀, g₀⟩)).2
        = some ⟨some (sortStrings F), om₀, g₀⟩ := rfl
    rw [hcalc,
      getPropertiesToMap_pick _ (sortStrings F) om₀ g₀ hg'
        (sortStrings_ne_nil F hFne),
      getPropertiesToMap_pick _ F none none (Or.inl rfl) hFne]
    exact congrArg buildMapper
      (List.filter_congr (fun c _ => mem_sortStrings_decide F c.targetKey))
  · obtain ⟨p₀, om₀, g₀⟩ := o
    have hom : om₀ = some F := hF
    subst hom
    have hg' : g₀ = none ∨ g₀ = some "" := hg
    have hp' : p₀ = none ∨ p₀ = some [] := hp
    rw [hfn]
    rcases hp' with rfl | rfl
    · have hcalc : (getOptionsKey (some ⟨none, some F, g₀⟩)).2
          = some ⟨none, some (sortStrings F), g₀⟩ := rfl
      rw [hcalc,
        getPropertiesToMap_omit _ none (Or.inl rfl) (sortStrings F) g₀ hg'
          (sortStrings_ne_nil F hFne),
        getPropertiesToMap_omit _ none (Or.inl rfl) F none (Or.inl rfl) hFne]
      exact congrArg buildMapper
        (List.filter_congr (fun c _ => by
          rw [mem_sortStrings_decide F c.targetKey]))
    · have hcalc : (getOptionsKey (some ⟨some [], some F, g₀⟩)).2
          = some ⟨some [], some F, g₀⟩ := rfl
      rw [hcalc,
        getPropertiesToMap_omit _ (some []) (Or.inr rfl) F g₀ hg' hFne,
        getPropertiesToMap_omit _ none (Or.inl rfl) F none (Or.inl rfl) hFne]

/-- Witness for the amended C3: three fresh compiles at the demo entry:
group g together with pick ⟨a⟩ honors the group; pick ⟨a⟩ together with
omit ⟨b⟩ honors the pick; omit ⟨b⟩ together with the dishonored empty
pick honors the omit. -/
theorem C3_mode_precedence_witness :
    ((createMapper metaDemo 0
        (some { pick := some ["a"], group := some "g" }) s0).1.fn
      = buildMapper (getPropertiesToMap (getEntry metaDemo s0 0).1
          (some { group := some "g" })))
    ∧ ((createMapper metaDemo 0
        (some { pick := some ["a"], omitF := some ["b"] }) s0).1.fn
      = buildMapper (getPropertiesToMap (getEntry metaDemo s0 0).1
          (some { pick := some ["a"] })))
    ∧ ((createMapper metaDemo 0
        (some { pick := some [], omitF := some ["b"] }) s0).1.fn
      = buildMapper (getPropertiesToMap (getEntry metaDemo s0 0).1
          (some { omitF := some ["b"] }))) :=
  ⟨(C3_mode_precedence metaDemo 0 _ s0 rfl).1 "g" rfl (by decide),
   (C3_mode_precedence metaDemo 0 _ s0 rfl).2.1 ["a"] rfl (by decide)
     (Or.inl rfl),
   (C3_mode_precedence metaDemo 0 _ s0 rfl).2.2 ["b"] rfl (by decide)
     (Or.inl rfl) (Or.inr rfl)⟩

/-! Which keys end up assigned on a mapping result. -/

theorem mem_keys_setField (r : List (String × Value)) (k : String) (v : Value)
    (k' : String) :
    k' ∈ (setField r k v).map Prod.fst ↔ k' = k ∨ k' ∈ r.map Prod.fst := by
  induction r with
  | nil => simp [setField]
  | cons p rest ih =>
      rcases p with ⟨k₀, v₀⟩
      by_cases h : k₀ = k
      · subst h
        simp [setField]
      · have hb : (k₀ == k) = false := by simp [h]
        simp [setField, hb, ih]
        tauto

theorem mem_keys_foldl_setField {β : Type} (f : String × β → Value)
    (ms : List (String × β)) (r₀ : List (String × Value)) (k : String) :
    k ∈ ((ms.foldl (fun r m => setField r m.1 (f m)) r₀).map Prod.fst)
      ↔ k ∈ ms.map Prod.fst ∨ k ∈ r₀.map Prod.fst := by
  induction ms generalizing r₀ with
  | nil => simp
  | cons m ms ih =>
      simp only [List.foldl_cons, List.map_cons, List.mem_cons]
      rw [ih, mem_keys_setField]
      tauto

/-- The path/transform partition of buildMapper covers exactly the target
keys of the given configs. -/
theorem mem_partition_keys (props : List PropertyMappingConfig) (k : String) :
    (k ∈ (pathMappingsOf props).map Prod.fst
      ∨ k ∈ (transformMappingsOf props).map Prod.fst)
      ↔ k ∈ props.map (fun c => c.targetKey) := by
  induction props with
  | nil => simp [pathMappingsOf, transformMappingsOf]
  | cons p ps ih =>
      cases hsrc : p.source with
      | path s =>
          simp only [pathMappingsOf, transformMappingsOf, List.filterMap_cons,
            hsrc, List.map_cons, List.mem_cons] at ih ⊢
          tauto
      | fn f =>
          simp only [pathMappingsOf, transformMappingsOf, List.filterMap_cons,
            hsrc, List.map_cons, List.mem_cons] at ih ⊢
          tauto

/-- On a non-nullish source, the keys assigned by a built mapper are
exactly the target keys of the resolved configs (a key is assigned even
when its path resolves to undefined). -/
theorem assignedKeys_buildMapper (props : List PropertyMappingConfig)
    (src ctx : Value) (h : isNullish src = false) (k : String) :
    k ∈ assignedKeys (buildMapper props src ctx)
      ↔ k ∈ props.map (fun c => c.targetKey) := by
  unfold buildMapper
  simp only [h, Bool.false_eq_true, if_false, assignedKeys]
  rw [mem_keys_foldl_setField, mem_keys_foldl_setField]
  simp only [List.map_nil, List.not_mem_nil, or_false]
  exact or_comm.trans (mem_partition_keys props k)

/-- Fixture entry with a single non-ignored path-mapped field a and no
groups. -/
def entrySingle : MappingRegistryEntry :=
  { propertyConfigs := [⟨"a", .path "a", false⟩] }

/-- Counterexample to C4 as stated: with the single declared field a and
the empty pick list F = ⟨⟩, the source treats the empty pick as absent
(options.pick.length > 0 fails) and maps ALL declared fields, so key a
is assigned although F ∩ declaredKeys is empty. -/
theorem C4_counterexample :
    assignedKeys (buildMapper (getPropertiesToMap entrySingle
        (some { pick := some [] })) (.obj [("a", .str "v")]) .undefined) = ["a"]
    ∧ ("a" : String) ∉ ([] : List String) :=
  ⟨rfl, by decide⟩

/-- C4 amended: on a shape with no ignored fields and no group option,
for every NONEMPTY field list F the keys assigned by mapping a non-null
source with pick F are exactly declaredKeys ∩ F, and for every field
list F the keys assigned with omit F are exactly declaredKeys minus F;
fields requested but not declared are silently dropped (the
characterization forces assigned keys to be declared).  An empty pick
list is ignored by the source and maps all non-ignored fields (see the
counterexample), which is the only restriction the claim needs. -/
theorem C4_pick_omit_complementarity (e : MappingRegistryEntry)
    (F : List String) (src ctx : Value)
    (hnoign : ∀ c ∈ e.propertyConfigs, c.ignore = false)
    (hsrc : isNullish src = false) :
    (F ≠ [] → ∀ k, k ∈ assignedKeys (buildMapper
        (getPropertiesToMap e (some { pick := some F })) src ctx)
      ↔ (k ∈ declaredKeys e ∧ k ∈ F))
    ∧ (∀ k, k ∈ assignedKeys (buildMapper
        (getPropertiesToMap e (some { omitF := some F })) src ctx)
      ↔ (k ∈ declaredKeys e ∧ k ∉ F)) := by
  have hall : e.propertyConfigs.filter (fun c => !c.ignore) = e.propertyConfigs :=
    List.filter_eq_self.mpr (fun c hc => by simp [hnoign c hc])
  constructor
  · intro hF k
    have hprops : getPropertiesToMap e (some { pick := some F })
        = e.propertyConfigs.filter (fun c => decide (c.targetKey ∈ F)) := by
      unfold getPropertiesToMap projectPickOmit
      simp [hall, List.length_pos.mpr hF]
    rw [assignedKeys_buildMapper _ _ _ hsrc, hprops]
    simp only [List.mem_map, List.mem_filter, decide_eq_true_eq, declaredKeys]
    constructor
    · rintro ⟨c, ⟨hc, hcF⟩, rfl⟩
      exact ⟨⟨c, hc, rfl⟩, hcF⟩
    · rintro ⟨⟨c, hc, rfl⟩, hkF⟩
      exact ⟨c, ⟨hc, hkF⟩, rfl⟩
  · intro k
    by_cases hF : F = []
    · subst hF
      have hprops : getPropertiesToMap e (some { omitF := some [] })
          = e.propertyConfigs := by
        unfold getPropertiesToMap projectPickOmit projectOmit
        simp [hall]
      rw [assignedKeys_buildMapper _ _ _ hsrc, hprops]
      simp [declaredKeys]
    · have hprops : getPropertiesToMap e (some { omitF := some F })
          = e.propertyConfigs.filter (fun c => !(decide (c.targetKey ∈ F))) := by
        unfold getPropertiesToMap projectPickOmit projectOmit
        simp [hall, List.length_pos.mpr hF]
      rw [assignedKeys_buildMapper _ _ _ hsrc, hprops]
      simp only [List.mem_map, List.mem_filter, Bool.not_eq_true',
        decide_eq_false_iff_not, declaredKeys]
      constructor
      · rintro ⟨c, ⟨hc, hcF⟩, rfl⟩
        exact ⟨⟨c, hc, rfl⟩, hcF⟩
      · rintro ⟨⟨c, hc, rfl⟩, hkF⟩
        exact ⟨c, ⟨hc, hkF⟩, rfl⟩

/-- Witness for the amended C4: pick with the unordered list ⟨zz, a⟩
(zz undeclared, silently dropped) and omit ⟨a⟩ on the two-field demo
entry. -/
theorem C4_pick_omit_complementarity_witness :
    ("a" ∈ assignedKeys (buildMapper (getPropertiesToMap (metaDemo 0)
        (some { pick := some ["zz", "a"] })) srcDemo .undefined)
      ↔ ("a" ∈ declaredKeys (metaDemo 0) ∧ "a" ∈ (["zz", "a"] : List String)))
    ∧ ("b" ∈ assignedKeys (buildMapper (getPropertiesToMap (metaDemo 0)
        (some { omitF := some ["a"] })) srcDemo .undefined)
      ↔ ("b" ∈ declaredKeys (metaDemo 0) ∧ "b" ∉ (["a"] : List String))) :=
  ⟨(C4_pick_omit_complementarity (metaDemo 0) ["zz", "a"] srcDemo .undefined
      (by decide) rfl).1 (by decide) "a",
   (C4_pick_omit_complementarity (metaDemo 0) ["a"] srcDemo .undefined
      (by decide) rfl).2 "b"⟩

/-- C6 (array mapping invariants): a non-array source (including null
and undefined) yields the empty array, not an error and not null; an
array source yields an array of the same length whose i-th element is
the compiled mapper applied to the i-th input element, with nullish
elements mapped to the null sentinel instead of being skipped. -/
theorem C6_map_array (meta : Nat → MappingRegistryEntry) (t : Nat)
    (options : Option MapOptions) (ctx : Value) (s : RegistryState) :
    (∀ v : Value, isArrValue v = false →
      (mapArray meta t options v ctx s).1 = .arr [])
    ∧ ∀ xs : List Value, ∃ ys : List Value,
        (mapArray meta t options (.arr xs) ctx s).1 = .arr ys
        ∧ ys.length = xs.length
        ∧ ∀ i : Nat, i < xs.length →
            ys.getD i .undefined
              = (if isNullish (xs.getD i .undefined) then Value.null
                else (createMapper meta t options s).1.fn (xs.getD i .undefined) ctx) := by
  constructor
  · intro v hv
    cases v <;> simp_all [mapArray, isArrValue]
  · intro xs
    refine ⟨_, rfl, by simp, ?_⟩
    intro i hi
    rw [List.getD_eq_getElem?_getD, List.getD_eq_getElem?_getD,
      List.getElem?_map, List.getElem?_eq_getElem hi]
    simp

/-- Witness for C6: a null source, a numeric non-array source, and the
two-element array ⟨null-element, object⟩ at the demo entry. -/
theorem C6_map_array_witness :
    (mapArray metaDemo 0 none .null .undefined s0).1 = .arr []
    ∧ (mapArray metaDemo 0 none (.numV 7) .undefined s0).1 = .arr []
    ∧ ∃ ys : List Value,
        (mapArray metaDemo 0 none (.arr [.null, srcDemo]) .undefined s0).1 = .arr ys
        ∧ ys.length = 2
        ∧ ∀ i : Nat, i < 2 →
            ys.getD i .undefined
              = (if isNullish ([Value.null, srcDemo].getD i .undefined) then Value.null
                else (createMapper metaDemo 0 none s0).1.fn
                  ([Value.null, srcDemo].getD i .undefined) .undefined) :=
  ⟨(C6_map_array metaDemo 0 none .undefined s0).1 .null rfl,
   (C6_map_array metaDemo 0 none .undefined s0).1 (.numV 7) rfl,
   (C6_map_array metaDemo 0 none .undefined s0).2 [.null, srcDemo]⟩

/-- Counterexample to C8 as stated: the empty string is a group name not
present in the group index of the fixture entry (its index is empty),
yet compiling with group "" resolves ALL non-ignored declarations (the
source guards the group branch with JS truthiness, and "" is falsy, so
the branch falls through to the no-option path), and the mapper assigns
key a on a non-null source instead of producing an empty target. -/
theorem C8_counterexample :
    getPropertiesToMap entrySingle (some { group := some "" })
        = entrySingle.propertyConfigs
    ∧ assignedKeys (buildMapper (getPropertiesToMap entrySingle
        (some { group := some "" })) (.obj [("a", .str "v")]) .undefined) = ["a"]
    ∧ entrySingle.fieldGroups = []
    ∧ (["a"] : List String) ≠ [] :=
  ⟨rfl, rfl, rfl, by decide⟩

/-- C8 amended: for every NONEMPTY group name absent from the entry's
group index, compiling with that group resolves zero active declarations
(not an error), and invoking the resulting mapper on a non-null source
yields a result with no fields assigned.  An empty group name is falsy
in the source's truthiness guard and is treated as no group option at
all (see the counterexample). -/
theorem C8_unknown_group (e : MappingRegistryEntry) (o : MapOptions)
    (g : String) (src ctx : Value)
    (h₁ : o.group = some g) (h₂ : g ≠ "")
    (h₃ : e.fieldGroups.lookup g = none) :
    getPropertiesToMap e (some o) = []
    ∧ (isNullish src = false →
        buildMapper (getPropertiesToMap e (some o)) src ctx = .obj []) := by
  obtain ⟨p, om, g₀⟩ := o
  have hg₀ : g₀ = some g := h₁
  subst hg₀
  have hp : getPropertiesToMap e (some ⟨p, om, some g⟩) = [] := by
    unfold getPropertiesToMap
    simp [h₂, h₃]
  refine ⟨hp, fun hsrc => ?_⟩
  rw [hp]
  simp [buildMapper, hsrc, pathMappingsOf, transformMappingsOf]

/-- Witness for the amended C8 at the demo entry and the unknown group
name nope. -/
theorem C8_unknown_group_witness :
    getPropertiesToMap (metaDemo 0) (some { group := some "nope" }) = []
    ∧ buildMapper (getPropertiesToMap (metaDemo 0)
        (some { group := some "nope" })) srcDemo .undefined = .obj [] :=
  ⟨(C8_unknown_group (metaDemo 0) _ "nope" srcDemo .undefined rfl (by decide) rfl).1,
   (C8_unknown_group (metaDemo 0) _ "nope" srcDemo .undefined rfl (by decide) rfl).2 rfl⟩

/-- Both branches of createMapper hand back the options value mutated by
key derivation. -/
theorem createMapper_options (meta : Nat → MappingRegistryEntry) (t : Nat)
    (o : Option MapOptions) (s : RegistryState) :
    (createMapper meta t o s).2.1 = (getOptionsKey o).2 := by
  simp only [createMapper]
  split <;> rfl

/-- C9 (key derivation mutates its argument): when the options carry a
pick list, deriving the signature replaces that list by its sorted
version in the caller-visible options (the in-place Array.prototype.sort
of the source); when there is no pick but an omit list, the omit list is
sorted likewise; the sorted list is an ordered permutation of the
caller's list.  Every createMapper call (and hence every facade
map/mapArray/pick/omit/createMapper call) performs this derivation, as
the last conjunct records. -/
theorem C9_options_key_sorts_in_place (o : MapOptions) :
    (∀ l, o.pick = some l →
      (getOptionsKey (some o)).2 = some { o with pick := some (sortStrings l) }
      ∧ List.Sorted strLeR (sortStrings l)
      ∧ List.Perm (sortStrings l) l)
    ∧ (o.pick = none → ∀ l, o.omitF = some l →
      (getOptionsKey (some o)).2 = some { o with omitF := some (sortStrings l) }
      ∧ List.Sorted strLeR (sortStrings l)
      ∧ List.Perm (sortStrings l) l)
    ∧ (∀ meta t s l, o.pick = some l →
        (createMapper meta t (some o) s).2.1
          = some { o with pick := some (sortStrings l) }) := by
  refine ⟨fun l hl => ⟨?_, List.sorted_insertionSort strLeR l,
      List.perm_insertionSort strLeR l⟩,
    fun hp l hl => ⟨?_, List.sorted_insertionSort strLeR l,
      List.perm_insertionSort strLeR l⟩,
    fun meta t s l hl => ?_⟩
  · simp [getOptionsKey, hl, sortStrings]
  · simp [getOptionsKey, hp, hl, sortStrings]
  · rw [createMapper_options]
    simp [getOptionsKey, hl, sortStrings]

/-- Witness for C9: the caller's options for pick ⟨b, a⟩ hold ⟨a, b⟩
after derivation, which is not the supplied order. -/
theorem C9_options_key_sorts_in_place_witness :
    (getOptionsKey (some ({ pick := some ["b", "a"] } : MapOptions))).2
        = some { pick := some ["a", "b"] }
    ∧ (["a", "b"] : List String) ≠ ["b", "a"] := by
  constructor
  · have h := ((C9_options_key_sorts_in_place
        { pick := some ["b", "a"] }).1 ["b", "a"] rfl).1
    rw [h]
    exact rfl
  · decide

end Typemold
